import Mathlib

/-!
Verification of the lingua-peer harvesting pipeline (src/main.py together
with the schema of src/models.py).  The Python code is shallowly embedded:
the heterogeneous note contents become an inductive type of Python-like
values, the per-field optional-chaining accessors become total Lean
functions into Except (so that a raised AttributeError/TypeError is an
explicit error value), and the SQLite session becomes an explicit Store
record threaded through the three pipeline stages.
-/

namespace LinguaPeer

/-- Python-like dynamic values, as they appear in a note's content mapping.
A mapping is modelled as an association list with distinct keys (insertion
order preserved, exactly like a Python dict). -/
inductive PyVal where
  | none : PyVal
  | str : String → PyVal
  | int : Int → PyVal
  | list : List PyVal → PyVal
  | dict : List (String × PyVal) → PyVal

/-- The Python exceptions that the embedded field accessors can raise. -/
inductive PyErr where
  | attributeError : PyErr
  | typeError : PyErr

/-- Python truthiness, as used by the `x or y` chains and `if rev.tcdate`
in main.py: empty strings/lists/dicts, zero and None are falsy. -/
def pyTruthy : PyVal → Bool
  | PyVal.none => false
  | PyVal.str s => s != ""
  | PyVal.int n => n != 0
  | PyVal.list l => !l.isEmpty
  | PyVal.dict d => !d.isEmpty

/-- Python `a or b` restricted to already-evaluated operands. -/
def pyOr (a b : PyVal) : PyVal :=
  if pyTruthy a then a else b

/-- First-match lookup in an association list (Python dict lookup; keys of
an embedded dict are distinct so first-match is the dict's entry). -/
def dictLookup {α : Type} (m : List (String × α)) (k : String) : Option α :=
  match m with
  | [] => Option.none
  | (k', v) :: rest => if k' = k then some v else dictLookup rest k

/-- Python dict assignment d[k] = v: overwrite in place if the key exists
(keeping its position), otherwise append at the end. -/
def dictInsert {α : Type} (m : List (String × α)) (k : String) (v : α) : List (String × α) :=
  match m with
  | [] => [(k, v)]
  | (k', v') :: rest => if k' = k then (k, v) :: rest else (k', v') :: dictInsert rest k v

/-- Embeds the pervasive access pattern
content.get(key, \x7b\x7d).get("value", dflt) of main.py: a missing key
degrades to the default, a wrapper dict yields its "value" slot (or dflt),
and a present non-dict value raises AttributeError (strings, ints, lists
and None have no .get method). -/
def getWrappedValue (content : List (String × PyVal)) (key : String) (dflt : PyVal) :
    Except PyErr PyVal :=
  match (dictLookup content key).getD (PyVal.dict []) with
  | PyVal.dict d => Except.ok ((dictLookup d "value").getD dflt)
  | _ => Except.error PyErr.attributeError

/-- Helper of the `", ".join` embedding: every element must be a string,
otherwise Python raises TypeError. -/
def joinStrs : List PyVal → Except PyErr (List String)
  | [] => Except.ok []
  | PyVal.str s :: rest =>
    match joinStrs rest with
    | Except.error e => Except.error e
    | Except.ok ss => Except.ok (s :: ss)
  | _ :: _ => Except.error PyErr.typeError

/-- Embeds `", ".join(v)` (main.py line 141): joining a list of strings
intercalates them, joining a string intercalates its characters, and any
other operand raises TypeError. -/
def pyJoinComma : PyVal → Except PyErr String
  | PyVal.str s => Except.ok (String.intercalate ", " (s.toList.map (fun c => String.mk [c])))
  | PyVal.list l =>
    match joinStrs l with
    | Except.error e => Except.error e
    | Except.ok ss => Except.ok (String.intercalate ", " ss)
  | _ => Except.error PyErr.typeError

/-- A raw note as returned by the OpenReview client: identifier, display
number, forum (parent paper) reference, signatures, content mapping and
creation timestamp in epoch milliseconds (None modelled as Option.none). -/
structure RawNote where
  id : String
  number : Int
  forum : String
  signatures : List String
  content : List (String × PyVal)
  tcdate : Option Int

/-- Row of the papers table (src/models.py, class Paper). -/
structure Paper where
  paper_id : String
  title : PyVal
  abstract : PyVal
  authors : String
  venue : String
  year : Int
  submission_text : Option String
  acceptance_status : Option PyVal
  license : String

/-- Row of the reviews table (src/models.py, class Review).  Dates are
abstracted to an integer day index. -/
structure Review where
  review_id : String
  paper_id : String
  reviewer_id : Option String
  review_text : PyVal
  review_date : Int
  overall_score : PyVal
  confidence_score : PyVal
  review_structure : String

/-- Row of the paper_review_mapping table (src/models.py). -/
structure PaperReviewMapping where
  paper_id : String
  review_id : String
  reviewer_role : String
  review_round : Int

/-- The persistent store: the three tables of the SQLite database, each as
a list of rows in insertion order. -/
@[ext] structure Store where
  papers : List Paper
  reviews : List Review
  mappings : List PaperReviewMapping

/-- session.merge for a Paper: replace the row with the same primary key
in place, or append a new row (upsert-by-key). -/
def upsertPaper : List Paper → Paper → List Paper
  | [], p => [p]
  | q :: rest, p => if q.paper_id = p.paper_id then p :: rest else q :: upsertPaper rest p

/-- session.merge for a Review (primary key review_id). -/
def upsertReview : List Review → Review → List Review
  | [], r => [r]
  | q :: rest, r => if q.review_id = r.review_id then r :: rest else q :: upsertReview rest r

/-- session.merge for a PaperReviewMapping (composite primary key). -/
def upsertMapping : List PaperReviewMapping → PaperReviewMapping → List PaperReviewMapping
  | [], m => [m]
  | q :: rest, m =>
    if q.paper_id = m.paper_id ∧ q.review_id = m.review_id
    then m :: rest else q :: upsertMapping rest m

/-- session.query(Paper).filter_by(paper_id=pid).first() and
session.get(Paper, pid): first row with the given primary key. -/
def getPaper : List Paper → String → Option Paper
  | [], _ => Option.none
  | p :: rest, pid => if p.paper_id = pid then some p else getPaper rest pid

/-- session.query(Review).filter_by(review_id=rid).first(). -/
def getReview : List Review → String → Option Review
  | [], _ => Option.none
  | r :: rest, rid => if r.review_id = rid then some r else getReview rest rid

/-- Deduplication by platform identifier, embedding the comprehension
pattern of main.py lines 124, 201 and 281: build a dict keyed by key_fn
(last occurrence of a key overwrites the value in place) and take its
values in key-first-insertion order. -/
def dedupeBy {α : Type} (key : α → String) (xs : List α) : List α :=
  (xs.foldl (fun m x => dictInsert m (key x) x) []).map Prod.snd

/-- Title extraction (main.py line 139):
note.content.get("title", \x7b\x7d).get("value", "") or "Unknown". -/
def extractTitle (note : RawNote) : Except PyErr PyVal :=
  match getWrappedValue note.content "title" (PyVal.str "") with
  | Except.error e => Except.error e
  | Except.ok v => Except.ok (pyOr v (PyVal.str "Unknown"))

/-- Abstract extraction (main.py line 140):
note.content.get("abstract", \x7b\x7d).get("value", "") or "". -/
def extractAbstract (note : RawNote) : Except PyErr PyVal :=
  match getWrappedValue note.content "abstract" (PyVal.str "") with
  | Except.error e => Except.error e
  | Except.ok v => Except.ok (pyOr v (PyVal.str ""))

/-- Authors extraction (main.py line 141):
", ".join(note.content.get("authors", \x7b\x7d).get("value", [])) or "Unknown". -/
def extractAuthors (note : RawNote) : Except PyErr String :=
  match getWrappedValue note.content "authors" (PyVal.list []) with
  | Except.error e => Except.error e
  | Except.ok v =>
    match pyJoinComma v with
    | Except.error e => Except.error e
    | Except.ok j => Except.ok (if j = "" then "Unknown" else j)

/-- The value of note.content.get("pdf") (single-argument get, default
None; this access can never raise). -/
def pdfFlag (note : RawNote) : PyVal :=
  (dictLookup note.content "pdf").getD PyVal.none

/-- main.py line 142: download the pdf only when the raw record flags one;
the download itself (network plus filesystem, always caught) is abstracted
as a function from the note to an optional stored path. -/
def submissionText (dl : RawNote → Option String) (note : RawNote) : Option String :=
  if pyTruthy (pdfFlag note) then dl note else Option.none

/-- Per-note paper construction (main.py lines 139-154): the fields are
extracted in source order and the first raised exception aborts the
record (it is caught by the per-record handler). -/
def buildPaper (dl : RawNote → Option String) (note : RawNote) : Except PyErr Paper :=
  match extractTitle note with
  | Except.error e => Except.error e
  | Except.ok t =>
    match extractAbstract note with
    | Except.error e => Except.error e
    | Except.ok a =>
      match extractAuthors note with
      | Except.error e => Except.error e
      | Except.ok au =>
        Except.ok
          { paper_id := note.id
            title := t
            abstract := a
            authors := au
            venue := "EMNLP/2023/Conference"
            year := 2023
            submission_text := submissionText dl note
            acceptance_status := Option.none
            license := "CC-BY" }

/-- Whether buildPaper succeeds (used to state what the reported paper
count actually counts). -/
def buildPaperOk (dl : RawNote → Option String) (note : RawNote) : Bool :=
  match buildPaper dl note with
  | Except.ok _ => true
  | Except.error _ => false

/-- One iteration of the fetch_papers loop, store effect only (main.py
lines 130-167): skip when the paper already exists, drop the record when
extraction raises (the except branch rolls back), otherwise upsert. -/
def paperStep (dl : RawNote → Option String) (s : Store) (note : RawNote) : Store :=
  if (getPaper s.papers note.id).isSome then s
  else
    match buildPaper dl note with
    | Except.error _ => s
    | Except.ok p => { s with papers := upsertPaper s.papers p }

/-- The paper_count increment of the same iteration: the counter also
advances on the skip branch (main.py line 136) but not on the error
branch. -/
def paperTick (dl : RawNote → Option String) (s : Store) (note : RawNote) : Nat :=
  if (getPaper s.papers note.id).isSome then 1
  else
    match buildPaper dl note with
    | Except.error _ => 0
    | Except.ok _ => 1

/-- fetch_papers (main.py lines 84-175) given the discovered submissions:
dedupe by note id, then fold the per-record step, returning the final
store and the returned paper_count. -/
def fetchPapers (dl : RawNote → Option String) (subs : List RawNote) (s : Store) : Store × Nat :=
  (dedupeBy RawNote.id subs).foldl
    (fun acc note => (paperStep dl acc.1 note, acc.2 + paperTick dl acc.1 note)) (s, 0)

/-- Review text extraction (main.py line 215):
rev.content.get("review", \x7b\x7d).get("value", "") or "". -/
def extractReviewText (rev : RawNote) : Except PyErr PyVal :=
  match getWrappedValue rev.content "review" (PyVal.str "") with
  | Except.error e => Except.error e
  | Except.ok v => Except.ok (pyOr v (PyVal.str ""))

/-- Abstraction of datetime.fromtimestamp(t / 1000).date(): epoch
milliseconds to a calendar day index. -/
def msDate (t : Int) : Int :=
  t / 86400000

/-- Review date (main.py line 216): the note's creation timestamp when it
is truthy (not None and not 0), otherwise today's date at ingestion. -/
def reviewDate (today : Int) (rev : RawNote) : Int :=
  match rev.tcdate with
  | some t => if t = 0 then today else msDate t
  | Option.none => today

/-- Overall score resolution (main.py lines 217-221): the Python or-chain
short-circuits, so later keys are only accessed while the earlier values
are falsy, and the result is "" when all three are falsy. -/
def extractOverallScore (content : List (String × PyVal)) : Except PyErr PyVal :=
  match getWrappedValue content "overall assessment" (PyVal.str "") with
  | Except.error e => Except.error e
  | Except.ok a =>
    if pyTruthy a then Except.ok a
    else
      match getWrappedValue content "recommendation" (PyVal.str "") with
      | Except.error e => Except.error e
      | Except.ok b =>
        if pyTruthy b then Except.ok b
        else
          match getWrappedValue content "overall_evaluation" (PyVal.str "") with
          | Except.error e => Except.error e
          | Except.ok c =>
            if pyTruthy c then Except.ok c else Except.ok (PyVal.str "")

/-- Confidence extraction (main.py line 222). -/
def extractConfidence (content : List (String × PyVal)) : Except PyErr PyVal :=
  match getWrappedValue content "confidence" (PyVal.str "") with
  | Except.error e => Except.error e
  | Except.ok v => Except.ok (pyOr v (PyVal.str ""))

/-- Structure classification (main.py line 223 and
src/simple_emnlp_crawler.py line 146): "structured" when the raw content
mapping has strictly more than 5 keys. -/
def reviewStructure (content : List (String × PyVal)) : String :=
  if 5 < content.length then "structured" else "unstructured"

/-- Per-note review and mapping construction (main.py lines 213-242),
fields extracted in source order. -/
def buildReview (today : Int) (rev : RawNote) : Except PyErr (Review × PaperReviewMapping) :=
  match extractReviewText rev with
  | Except.error e => Except.error e
  | Except.ok text =>
    match extractOverallScore rev.content with
    | Except.error e => Except.error e
    | Except.ok score =>
      match extractConfidence rev.content with
      | Except.error e => Except.error e
      | Except.ok conf =>
        Except.ok
          ({ review_id := rev.id
             paper_id := rev.forum
             reviewer_id := rev.signatures.head?
             review_text := text
             review_date := reviewDate today rev
             overall_score := score
             confidence_score := conf
             review_structure := reviewStructure rev.content },
           { paper_id := rev.forum
             review_id := rev.id
             reviewer_role := "reviewer"
             review_round := 1 })

/-- One iteration of the fetch_reviews loop (main.py lines 205-249): skip
when the review id already exists, drop the record when extraction raises,
otherwise upsert the review together with its mapping.  No check that the
forum resolves to a stored paper is performed. -/
def reviewStep (today : Int) (s : Store) (rev : RawNote) : Store :=
  if (getReview s.reviews rev.id).isSome then s
  else
    match buildReview today rev with
    | Except.error _ => s
    | Except.ok rm =>
      { s with
        reviews := upsertReview s.reviews rm.1
        mappings := upsertMapping s.mappings rm.2 }

/-- fetch_reviews (main.py lines 177-257) given the discovered reviews:
the returned count is total_reviews, the number of unique discovered
reviews, computed before the loop. -/
def fetchReviews (today : Int) (revs : List RawNote) (s : Store) : Store × Nat :=
  ((dedupeBy RawNote.id revs).foldl (reviewStep today) s, (dedupeBy RawNote.id revs).length)

/-- Decision value extraction (main.py line 287):
d.content.get("decision", \x7b\x7d).get("value", "") or "". -/
def extractDecision (d : RawNote) : Except PyErr PyVal :=
  match getWrappedValue d.content "decision" (PyVal.str "") with
  | Except.error e => Except.error e
  | Except.ok v => Except.ok (pyOr v (PyVal.str ""))

/-- The assignment paper.acceptance_status = decision on the row with the
given primary key (rows with other keys are untouched). -/
def setAcceptance (ps : List Paper) (pid : String) (v : PyVal) : List Paper :=
  ps.map (fun p => if p.paper_id = pid then { p with acceptance_status := some v } else p)

/-- One iteration of the fetch_decisions loop (main.py lines 285-298):
extract the decision value (a raise skips the record), look the paper up
by the decision's forum, and update its acceptance_status when found. -/
def processDecisionNote (s : Store) (d : RawNote) : Store :=
  match extractDecision d with
  | Except.error _ => s
  | Except.ok v =>
    if (getPaper s.papers d.forum).isSome
    then { s with papers := setAcceptance s.papers d.forum v }
    else s

/-- fetch_decisions (main.py lines 259-306) given the discovered
decisions: the returned count is total_decisions, the number of unique
discovered decisions. -/
def fetchDecisions (decs : List RawNote) (s : Store) : Store × Nat :=
  ((dedupeBy RawNote.id decs).foldl processDecisionNote s, (dedupeBy RawNote.id decs).length)

/-- The full pipeline of a run of main.py: fetch_papers, then
fetch_reviews, then fetch_decisions, against the same discovered source
data (dl abstracts pdf downloading, today the ingestion date). -/
def pipeline (dl : RawNote → Option String) (today : Int)
    (subs revs decs : List RawNote) (s : Store) : Store :=
  (fetchDecisions decs (fetchReviews today revs (fetchPapers dl subs s).1).1).1

/-! ### Basic store lemmas -/

theorem getPaper_upsertPaper_self (ps : List Paper) (p : Paper) :
    getPaper (upsertPaper ps p) p.paper_id = some p := by
  induction ps with
  | nil => simp [upsertPaper, getPaper]
  | cons q rest ih =>
    by_cases h : q.paper_id = p.paper_id
    · simp [upsertPaper, h, getPaper]
    · simp [upsertPaper, h, getPaper, ih]

theorem getPaper_upsertPaper_ne (ps : List Paper) (p : Paper) (pid : String)
    (h : p.paper_id ≠ pid) : getPaper (upsertPaper ps p) pid = getPaper ps pid := by
  induction ps with
  | nil => simp [upsertPaper, getPaper, h]
  | cons q rest ih =>
    by_cases hq : q.paper_id = p.paper_id
    · have hq' : q.paper_id ≠ pid := by rw [hq]; exact h
      simp [upsertPaper, hq, getPaper, h, hq']
    · by_cases hqp : q.paper_id = pid <;>
        simp [upsertPaper, hq, getPaper, hqp, ih, Ne.symm h]

theorem isSome_getPaper_upsertPaper (ps : List Paper) (p : Paper) (pid : String)
    (h : (getPaper ps pid).isSome = true) :
    (getPaper (upsertPaper ps p) pid).isSome = true := by
  by_cases hp : p.paper_id = pid
  · rw [← hp, getPaper_upsertPaper_self]; rfl
  · rw [getPaper_upsertPaper_ne ps p pid hp]; exact h

theorem getReview_upsertReview_self (rs : List Review) (r : Review) :
    getReview (upsertReview rs r) r.review_id = some r := by
  induction rs with
  | nil => simp [upsertReview, getReview]
  | cons q rest ih =>
    by_cases h : q.review_id = r.review_id
    · simp [upsertReview, h, getReview]
    · simp [upsertReview, h, getReview, ih]

theorem getReview_upsertReview_ne (rs : List Review) (r : Review) (rid : String)
    (h : r.review_id ≠ rid) : getReview (upsertReview rs r) rid = getReview rs rid := by
  induction rs with
  | nil => simp [upsertReview, getReview, h]
  | cons q rest ih =>
    by_cases hq : q.review_id = r.review_id
    · have hq' : q.review_id ≠ rid := by rw [hq]; exact h
      simp [upsertReview, hq, getReview, h, hq']
    · by_cases hqr : q.review_id = rid <;>
        simp [upsertReview, hq, getReview, hqr, ih, Ne.symm h]

theorem isSome_getReview_upsertReview (rs : List Review) (r : Review) (rid : String)
    (h : (getReview rs rid).isSome = true) :
    (getReview (upsertReview rs r) rid).isSome = true := by
  by_cases hr : r.review_id = rid
  · rw [← hr, getReview_upsertReview_self]; rfl
  · rw [getReview_upsertReview_ne rs r rid hr]; exact h

/-! ### Claim C8: overall score resolution order -/

/-- C8: the overall score of a review is the first non-empty value among
the keys "overall assessment", "recommendation", "overall_evaluation" in
that order, and the empty string when all three are empty (main.py lines
217-221); in particular, with "overall assessment" empty and
"recommendation" populated, the "recommendation" value is used. -/
theorem overall_score_resolution (content : List (String × PyVal)) (a b c : String)
    (ha : getWrappedValue content "overall assessment" (PyVal.str "") = Except.ok (PyVal.str a))
    (hb : getWrappedValue content "recommendation" (PyVal.str "") = Except.ok (PyVal.str b))
    (hc : getWrappedValue content "overall_evaluation" (PyVal.str "") = Except.ok (PyVal.str c)) :
    extractOverallScore content =
      Except.ok (PyVal.str
        (if a ≠ "" then a else if b ≠ "" then b else if c ≠ "" then c else "")) := by
  unfold extractOverallScore
  rw [ha, hb, hc]
  by_cases hA : a = ""
  · by_cases hB : b = ""
    · by_cases hC : c = "" <;> simp [pyTruthy, bne_iff_ne, hA, hB, hC]
    · simp [pyTruthy, bne_iff_ne, hA, hB]
  · simp [pyTruthy, bne_iff_ne, hA]

/-- Concrete content used to check overall_score_resolution. -/
def scoreContentEx : List (String × PyVal) :=
  [("overall assessment", PyVal.dict [("value", PyVal.str "")]),
   ("recommendation", PyVal.dict [("value", PyVal.str "Accept")]),
   ("overall_evaluation", PyVal.dict [("value", PyVal.str "5")])]

/-- Witness for overall_score_resolution at a record with an empty
"overall assessment" and populated "recommendation" and
"overall_evaluation": the resolved score is the "recommendation" value. -/
theorem overall_score_resolution_witness :
    extractOverallScore scoreContentEx = Except.ok (PyVal.str "Accept") := by
  have h := overall_score_resolution scoreContentEx "" "Accept" "5" rfl rfl rfl
  simpa using h

/-! ### Claim C9: structure classification boundary -/

/-- Concrete raw content mapping with exactly 5 keys. -/
def fiveKeyContent : List (String × PyVal) :=
  [("q1", PyVal.str "a"), ("q2", PyVal.str "b"), ("q3", PyVal.str "c"),
   ("q4", PyVal.str "d"), ("q5", PyVal.str "e")]

/-- Concrete raw content mapping with exactly 6 keys. -/
def sixKeyContent : List (String × PyVal) :=
  fiveKeyContent ++ [("q6", PyVal.str "f")]

/-- C9: review_structure is "structured" exactly when the raw content
mapping has strictly more than 5 keys and "unstructured" otherwise
(main.py line 223); in particular a 5-key mapping is "unstructured" and a
6-key mapping is "structured".  The Nodup hypothesis expresses that the
association list stands for a Python dict, whose length is its number of
keys. -/
theorem review_structure_boundary (content : List (String × PyVal))
    (hk : (content.map Prod.fst).Nodup) :
    (reviewStructure content = "structured" ↔ 5 < (content.map Prod.fst).length)
    ∧ (reviewStructure content = "unstructured" ↔ ¬ 5 < (content.map Prod.fst).length)
    ∧ reviewStructure fiveKeyContent = "unstructured"
    ∧ reviewStructure sixKeyContent = "structured" := by
  have hne : ("unstructured" : String) ≠ "structured" := by decide
  rw [List.length_map]
  by_cases h5 : 5 < content.length
  · exact ⟨by simp [reviewStructure, h5], by simp [reviewStructure, h5, hne], rfl, rfl⟩
  · refine ⟨?_, by simp [reviewStructure, h5], rfl, rfl⟩
    simp only [reviewStructure, if_neg h5]
    exact ⟨fun h => absurd h hne, fun h => absurd h h5⟩

/-- Witness for review_structure_boundary: the 6-key mapping classifies as
structured and the 5-key one as unstructured. -/
theorem review_structure_boundary_witness :
    reviewStructure fiveKeyContent = "unstructured"
    ∧ reviewStructure sixKeyContent = "structured" := by
  have h := review_structure_boundary sixKeyContent (by decide)
  exact ⟨h.2.2.1, h.2.2.2⟩

/-! ### Claim C10: reviewer identity from the signatures list -/

/-- Key fields of a successfully built review row, read off the record
literal of main.py lines 225-234. -/
theorem buildReview_fields (today : Int) (rev : RawNote) (rm : Review × PaperReviewMapping)
    (hbuild : buildReview today rev = Except.ok rm) :
    rm.1.review_id = rev.id ∧ rm.1.paper_id = rev.forum
      ∧ rm.1.reviewer_id = rev.signatures.head? := by
  unfold buildReview at hbuild
  split at hbuild
  · exact Except.noConfusion hbuild
  split at hbuild
  · exact Except.noConfusion hbuild
  split at hbuild
  · exact Except.noConfusion hbuild
  injection hbuild with h
  subst h
  exact ⟨rfl, rfl, rfl⟩

/-- C10: a review whose signatures list is empty is persisted with a null
reviewer_id (main.py line 214 guards the index with a truthiness check, so
no out-of-bounds failure occurs), and a non-empty signatures list yields
its first element; the persisted row carries exactly this value. -/
theorem reviewer_id_from_signatures (today : Int) (s : Store) (rev : RawNote)
    (rm : Review × PaperReviewMapping)
    (hbuild : buildReview today rev = Except.ok rm)
    (habs : getReview s.reviews rev.id = Option.none) :
    rm.1.reviewer_id = rev.signatures.head?
    ∧ (rev.signatures = [] → rm.1.reviewer_id = Option.none)
    ∧ (∀ x xs, rev.signatures = x :: xs → rm.1.reviewer_id = some x)
    ∧ getReview ((fetchReviews today [rev] s).1.reviews) rev.id = some rm.1 := by
  obtain ⟨hid, hpid, hhead⟩ := buildReview_fields today rev rm hbuild
  refine ⟨hhead, fun h0 => by rw [hhead, h0]; rfl,
          fun x xs hx => by rw [hhead, hx]; rfl, ?_⟩
  show getReview ((reviewStep today s rev).reviews) rev.id = some rm.1
  unfold reviewStep
  rw [habs, hbuild]
  simp only [Option.isSome_none, Bool.false_eq_true, if_false]
  rw [← hid]
  exact getReview_upsertReview_self s.reviews rm.1

/-! ### Claim C2: orphan reviews are persisted (code bug) -/

/-- A store holding a single paper P1 and nothing else. -/
def storeWithP1 : Store :=
  { papers :=
      [{ paper_id := "P1", title := PyVal.str "T", abstract := PyVal.str "",
         authors := "A", venue := "EMNLP/2023/Conference", year := 2023,
         submission_text := Option.none, acceptance_status := Option.none,
         license := "CC-BY" }]
    reviews := []
    mappings := [] }

/-- A discovered review whose forum "P404" matches no stored paper. -/
def orphanReviewNote : RawNote :=
  { id := "R1", number := 0, forum := "P404", signatures := [],
    content := [], tcdate := Option.none }

/-- C2 (code bug): fetch_reviews persists a review whose forum matches no
known paper as an orphan row: it inserts paper_id = rev.forum without any
existence check (main.py line 213), and the declared ForeignKey of
src/models.py is not enforced by SQLite's default configuration, so the
commit succeeds.  Evaluated at the failing input: the orphan row is in the
store while no paper with its paper_id exists. -/
theorem orphan_review_persisted :
    (fetchReviews 0 [orphanReviewNote] storeWithP1).1.reviews =
      [{ review_id := "R1", paper_id := "P404", reviewer_id := Option.none,
         review_text := PyVal.str "", review_date := 0,
         overall_score := PyVal.str "", confidence_score := PyVal.str "",
         review_structure := "unstructured" }]
    ∧ getPaper (fetchReviews 0 [orphanReviewNote] storeWithP1).1.papers "P404" =
        Option.none := ⟨rfl, rfl⟩

/-! ### Claim C4: field extraction can raise (corrected) -/

/-- A raw record whose "title" value is a bare string rather than a
wrapper mapping. -/
def flatTitleNote : RawNote :=
  { id := "N1", number := 1, forum := "N1", signatures := [],
    content := [("title", PyVal.str "Hello")], tcdate := Option.none }

/-- Counterexample to C4 as stated: extraction is not total on records of
arbitrary shape.  When the "title" value is a bare string, the chained
access content.get("title", \x7b\x7d).get("value", "") of main.py line 139
raises AttributeError (a str has no .get), so the record is skipped by the
per-record handler instead of degrading to a default. -/
theorem extraction_raises_on_unwrapped_title :
    buildPaper (fun _ => Option.none) flatTitleNote = Except.error PyErr.attributeError := rfl

/-! ### Claim C5: reported counts overstate ingestion (corrected) -/

/-- A store already holding review R9. -/
def storeWithR9 : Store :=
  { papers := []
    reviews :=
      [{ review_id := "R9", paper_id := "P1", reviewer_id := Option.none,
         review_text := PyVal.str "", review_date := 0,
         overall_score := PyVal.str "", confidence_score := PyVal.str "",
         review_structure := "unstructured" }]
    mappings := [] }

/-- The same review R9 discovered again. -/
def rediscoveredR9 : RawNote :=
  { id := "R9", number := 0, forum := "P1", signatures := [],
    content := [], tcdate := Option.none }

/-- Counterexample to C5 as stated: re-running fetch_reviews over a single
review that is already stored reports a count of 1 (total_reviews, the
number of unique discovered reviews, main.py lines 202 and 253) while the
store is unchanged, so zero records were ingested during the run. -/
theorem review_count_counts_skipped :
    (fetchReviews 0 [rediscoveredR9] storeWithR9).2 = 1
    ∧ (fetchReviews 0 [rediscoveredR9] storeWithR9).1 = storeWithR9 := ⟨rfl, rfl⟩

/-! ### Dictionary and dedupe lemmas -/

/-- Keys of an association list, in order. -/
def keysOf {α : Type} (m : List (String × α)) : List String := m.map Prod.fst

theorem keysOf_dictInsert {α : Type} (m : List (String × α)) (k : String) (v : α) :
    keysOf (dictInsert m k v) =
      if k ∈ keysOf m then keysOf m else keysOf m ++ [k] := by
  induction m with
  | nil => simp [dictInsert, keysOf]
  | cons p rest ih =>
    obtain ⟨k', v'⟩ := p
    simp only [keysOf] at ih ⊢
    by_cases h : k' = k
    · simp [dictInsert, h]
    · have hne : ¬ k = k' := fun hh => h hh.symm
      simp only [dictInsert, if_neg h, List.map_cons, List.mem_cons, hne, false_or]
      by_cases hk : k ∈ List.map Prod.fst rest
      · rw [if_pos hk, ih, if_pos hk]
      · rw [if_neg hk, ih, if_neg hk, List.cons_append]

theorem nodup_keysOf_dictInsert {α : Type} (m : List (String × α)) (k : String) (v : α)
    (h : (keysOf m).Nodup) : (keysOf (dictInsert m k v)).Nodup := by
  rw [keysOf_dictInsert]
  by_cases hk : k ∈ keysOf m
  · simpa [hk] using h
  · simp [hk, List.nodup_append, h]

/-- The accumulator invariant of the dedupe fold: each stored pair's key
is the key of its value. -/
def consistentKeys {α : Type} (key : α → String) (m : List (String × α)) : Prop :=
  ∀ p ∈ m, p.1 = key p.2

theorem consistentKeys_dictInsert {α : Type} (key : α → String)
    (m : List (String × α)) (x : α)
    (h : consistentKeys key m) : consistentKeys key (dictInsert m (key x) x) := by
  induction m with
  | nil =>
    intro p hp
    simp only [dictInsert, List.mem_singleton] at hp
    rw [hp]
  | cons q rest ih =>
    obtain ⟨k', v'⟩ := q
    have hrest : consistentKeys key rest := fun p hp => h p (List.mem_cons_of_mem _ hp)
    by_cases hq : k' = key x
    · intro p hp
      simp only [dictInsert, if_pos hq] at hp
      rcases List.mem_cons.mp hp with h1 | h2
      · rw [h1]
      · exact h _ (List.mem_cons_of_mem _ h2)
    · intro p hp
      simp only [dictInsert, if_neg hq] at hp
      rcases List.mem_cons.mp hp with h1 | h2
      · rw [h1]; exact h _ (List.mem_cons_self _ _)
      · exact ih hrest p h2

theorem consistentKeys_foldl {α : Type} (key : α → String) :
    ∀ (xs : List α) (m : List (String × α)), consistentKeys key m →
      consistentKeys key (xs.foldl (fun m x => dictInsert m (key x) x) m)
  | [], _, h => h
  | x :: xs, m, h =>
    consistentKeys_foldl key xs _ (consistentKeys_dictInsert key m x h)

theorem nodup_keysOf_foldl {α : Type} (key : α → String) :
    ∀ (xs : List α) (m : List (String × α)), (keysOf m).Nodup →
      (keysOf (xs.foldl (fun m x => dictInsert m (key x) x) m)).Nodup
  | [], _, h => h
  | x :: xs, m, h =>
    nodup_keysOf_foldl key xs _ (nodup_keysOf_dictInsert m (key x) x h)

theorem map_key_map_snd {α : Type} (key : α → String) (m : List (String × α))
    (h : consistentKeys key m) : (m.map Prod.snd).map key = keysOf m := by
  induction m with
  | nil => rfl
  | cons p rest ih =>
    have hrest : consistentKeys key rest := fun q hq => h q (List.mem_cons_of_mem _ hq)
    have hhead : p.1 = key p.2 := h p (List.mem_cons_self _ _)
    simp [keysOf, ih hrest, hhead.symm]

theorem map_key_dedupeBy {α : Type} (key : α → String) (xs : List α) :
    (dedupeBy key xs).map key =
      keysOf (xs.foldl (fun m x => dictInsert m (key x) x) []) := by
  unfold dedupeBy
  exact map_key_map_snd key _
    (consistentKeys_foldl key xs [] (fun p hp => absurd hp (List.not_mem_nil p)))

theorem nodup_map_key_dedupeBy {α : Type} (key : α → String) (xs : List α) :
    ((dedupeBy key xs).map key).Nodup := by
  rw [map_key_dedupeBy]
  exact nodup_keysOf_foldl key xs [] (by simp [keysOf])

/-- Specification-side rendering of the emit order described for the
Deduplicator: the input keys in order of first appearance, later
duplicates dropped. -/
def firstOccKeys : List String → List String
  | [] => []
  | k :: ks => k :: firstOccKeys (ks.filter (fun x => x ≠ k))
termination_by l => l.length
decreasing_by
  simp only [List.length_cons]
  exact Nat.lt_succ_of_le (List.length_filter_le _ _)

theorem keysOf_foldl_dictInsert {α : Type} (key : α → String) :
    ∀ (xs : List α) (m : List (String × α)),
      keysOf (xs.foldl (fun m x => dictInsert m (key x) x) m) =
        keysOf m ++ firstOccKeys ((xs.map key).filter (fun k => k ∉ keysOf m)) := by
  intro xs
  induction xs with
  | nil => intro m; simp [firstOccKeys]
  | cons x xs ih =>
    intro m
    rw [List.foldl_cons, ih]
    by_cases hx : key x ∈ keysOf m
    · have hkeys : keysOf (dictInsert m (key x) x) = keysOf m := by
        rw [keysOf_dictInsert, if_pos hx]
      rw [hkeys, List.map_cons, List.filter_cons_of_neg (by simp [hx])]
    · have hkeys : keysOf (dictInsert m (key x) x) = keysOf m ++ [key x] := by
        rw [keysOf_dictInsert, if_neg hx]
      rw [hkeys, List.map_cons, List.filter_cons_of_pos (by simp [hx])]
      rw [firstOccKeys, List.append_assoc, List.cons_append, List.nil_append]
      congr 2
      rw [List.filter_filter]
      refine congrArg firstOccKeys (List.filter_congr fun a _ => ?_)
      by_cases h1 : a ∈ keysOf m <;> by_cases h2 : a = key x <;>
        simp [h1, h2, List.mem_append]

theorem map_key_dedupeBy_firstOcc {α : Type} (key : α → String) (xs : List α) :
    (dedupeBy key xs).map key = firstOccKeys (xs.map key) := by
  rw [map_key_dedupeBy, keysOf_foldl_dictInsert]
  simp [keysOf]

theorem dictLookup_dictInsert_self {α : Type} (m : List (String × α)) (k : String) (v : α) :
    dictLookup (dictInsert m k v) k = some v := by
  induction m with
  | nil => simp [dictInsert, dictLookup]
  | cons p rest ih =>
    obtain ⟨k', v'⟩ := p
    by_cases h : k' = k <;> simp [dictInsert, h, dictLookup, ih]

theorem dictLookup_dictInsert_ne {α : Type} (m : List (String × α)) (k k' : String) (v : α)
    (h : k' ≠ k) : dictLookup (dictInsert m k v) k' = dictLookup m k' := by
  induction m with
  | nil => simp [dictInsert, dictLookup, Ne.symm h]
  | cons p rest ih =>
    obtain ⟨k0, v0⟩ := p
    by_cases h0 : k0 = k
    · simp [dictInsert, dictLookup, h0, Ne.symm h]
    · by_cases h1 : k0 = k' <;> simp [dictInsert, dictLookup, h0, h1, ih, h]

theorem dictLookup_of_mem {α : Type} (m : List (String × α)) (k : String) (v : α)
    (hm : (k, v) ∈ m) (hnd : (keysOf m).Nodup) : dictLookup m k = some v := by
  induction m with
  | nil => cases hm
  | cons p rest ih =>
    obtain ⟨k0, v0⟩ := p
    have hnd1 : (k0 :: keysOf rest).Nodup := hnd
    obtain ⟨hk0, hnd'⟩ := List.nodup_cons.mp hnd1
    rcases List.mem_cons.mp hm with h1 | h2
    · injection h1 with e1 e2
      simp [dictLookup, e1, e2]
    · have hk : k ≠ k0 := by
        intro hkk
        apply hk0
        subst hkk
        exact List.mem_map_of_mem Prod.fst h2
      simp only [dictLookup, if_neg (Ne.symm hk)]
      exact ih h2 hnd'

/-- The survivor for a given key: the last element of the input with that
key (main.py's dict comprehension overwrites earlier occurrences). -/
def lastWithKey {α : Type} (key : α → String) (k : String) (xs : List α) : Option α :=
  xs.foldl (fun acc y => if key y = k then some y else acc) Option.none

theorem dictLookup_foldl_dictInsert {α : Type} (key : α → String) :
    ∀ (xs : List α) (m : List (String × α)) (k : String),
      dictLookup (xs.foldl (fun m x => dictInsert m (key x) x) m) k =
        xs.foldl (fun acc y => if key y = k then some y else acc) (dictLookup m k) := by
  intro xs
  induction xs with
  | nil => intro m k; rfl
  | cons x xs ih =>
    intro m k
    rw [List.foldl_cons, ih, List.foldl_cons]
    congr 1
    by_cases hx : key x = k
    · rw [if_pos hx, ← hx, dictLookup_dictInsert_self]
    · rw [if_neg hx, dictLookup_dictInsert_ne _ _ _ _ (fun hh => hx hh.symm)]

theorem lastWithKey_eq_getLast_filter {α : Type} (key : α → String) (k : String)
    (xs : List α) :
    lastWithKey key k xs = (xs.filter (fun y => key y = k)).getLast? := by
  induction xs using List.reverseRecOn with
  | nil => rfl
  | append_singleton l a ih =>
    unfold lastWithKey at ih ⊢
    rw [List.foldl_append, List.filter_append, List.foldl_cons, List.foldl_nil]
    by_cases ha : key a = k
    · rw [List.filter_cons_of_pos (by simp [ha]), List.filter_nil, List.getLast?_concat,
        if_pos ha]
    · rw [List.filter_cons_of_neg (by simp [ha]), List.filter_nil, List.append_nil,
        if_neg ha, ih]

theorem mem_dedupeBy_lookup {α : Type} (key : α → String) (xs : List α) (x : α)
    (hx : x ∈ dedupeBy key xs) : lastWithKey key (key x) xs = some x := by
  unfold dedupeBy at hx
  obtain ⟨p, hp, hpx⟩ := List.mem_map.mp hx
  have hcons : consistentKeys key (xs.foldl (fun m x => dictInsert m (key x) x) []) :=
    consistentKeys_foldl key xs [] (fun q hq => absurd hq (List.not_mem_nil q))
  have hk : p.1 = key p.2 := hcons p hp
  have hnd : (keysOf (xs.foldl (fun m x => dictInsert m (key x) x) [])).Nodup :=
    nodup_keysOf_foldl key xs [] (by simp [keysOf])
  have hlook : dictLookup (xs.foldl (fun m x => dictInsert m (key x) x) []) p.1 = some p.2 :=
    dictLookup_of_mem _ _ _ hp hnd
  rw [dictLookup_foldl_dictInsert] at hlook
  rw [← hpx, ← hk]
  exact hlook

/-! ### Claim C3: dedupe correctness -/

/-- C3: dedupe by platform identifier keeps exactly one record per
distinct key: its key sequence is the input key sequence with later
duplicates removed (so output order is first-appearance order and keys are
unique), the survivor for each key is the last input occurrence with that
key, and concretely dedupe [A, B, A'] with A, A' sharing key k1 yields
[A', B] with A' at k1's first-insertion position (main.py lines 124, 201
and 281). -/
theorem dedupe_last_wins_first_order :
    (∀ (α : Type) (key : α → String) (xs : List α),
        (dedupeBy key xs).map key = firstOccKeys (xs.map key)
        ∧ ((dedupeBy key xs).map key).Nodup
        ∧ ∀ x ∈ dedupeBy key xs,
            (xs.filter (fun y => key y = key x)).getLast? = some x)
    ∧ dedupeBy Prod.fst [("k1", 1), ("k2", 2), ("k1", 3)] = [("k1", 3), ("k2", 2)] := by
  refine ⟨fun α key xs => ⟨map_key_dedupeBy_firstOcc key xs,
    nodup_map_key_dedupeBy key xs, fun x hx => ?_⟩, rfl⟩
  rw [← lastWithKey_eq_getLast_filter]
  exact mem_dedupeBy_lookup key xs x hx

/-- Witness for dedupe_last_wins_first_order at the concrete input
[A, B, A'] of the claim: the survivor for key k1 is the last occurrence. -/
theorem dedupe_last_wins_first_order_witness :
    ([("k1", 1), ("k2", 2), ("k1", 3)].filter
        (fun y => Prod.fst y = "k1")).getLast? = some ("k1", 3) := by
  have h := dedupe_last_wins_first_order
  have h3 := (h.1 (String × Nat) Prod.fst [("k1", 1), ("k2", 2), ("k1", 3)]).2.2
    ("k1", 3) (by rw [h.2]; exact List.mem_cons_self _ _)
  exact h3

/-! ### Paper stage lemmas -/

theorem buildPaper_fields (dl : RawNote → Option String) (note : RawNote) (p : Paper)
    (h : buildPaper dl note = Except.ok p) :
    p.paper_id = note.id ∧ p.acceptance_status = Option.none := by
  unfold buildPaper at h
  split at h
  · exact Except.noConfusion h
  split at h
  · exact Except.noConfusion h
  split at h
  · exact Except.noConfusion h
  injection h with h
  subst h
  exact ⟨rfl, rfl⟩

theorem paperStep_of_present (dl : RawNote → Option String) (s : Store) (n : RawNote)
    (h : (getPaper s.papers n.id).isSome = true) : paperStep dl s n = s := by
  unfold paperStep; rw [if_pos h]

theorem paperStep_of_err (dl : RawNote → Option String) (s : Store) (n : RawNote) (e : PyErr)
    (h : buildPaper dl n = Except.error e) : paperStep dl s n = s := by
  unfold paperStep
  by_cases hp : (getPaper s.papers n.id).isSome = true
  · rw [if_pos hp]
  · rw [if_neg hp, h]

theorem getPaper_paperStep_preserved (dl : RawNote → Option String) (s : Store) (n : RawNote)
    (pid : String) (row : Paper) (h : getPaper s.papers pid = some row) :
    getPaper (paperStep dl s n).papers pid = some row := by
  by_cases hp : (getPaper s.papers n.id).isSome = true
  · rw [paperStep_of_present dl s n hp]; exact h
  · unfold paperStep
    rw [if_neg hp]
    cases hb : buildPaper dl n with
    | error e => exact h
    | ok p =>
      obtain ⟨hid, _⟩ := buildPaper_fields dl n p hb
      have hne : p.paper_id ≠ pid := by
        intro hpe
        apply hp
        have hnp : n.id = pid := by rw [← hid, hpe]
        rw [hnp, h]
        rfl
      show getPaper (upsertPaper s.papers p) pid = some row
      rw [getPaper_upsertPaper_ne _ _ _ hne]
      exact h

theorem getPaper_papersFold_preserved (dl : RawNote → Option String) :
    ∀ (L : List RawNote) (s : Store) (pid : String) (row : Paper),
      getPaper s.papers pid = some row →
      getPaper ((L.foldl (paperStep dl) s).papers) pid = some row
  | [], _, _, _, h => h
  | n :: L, s, pid, row, h =>
    getPaper_papersFold_preserved dl L _ pid row
      (getPaper_paperStep_preserved dl s n pid row h)

theorem isSome_getPaper_papersFold (dl : RawNote → Option String) (L : List RawNote)
    (s : Store) (pid : String) (h : (getPaper s.papers pid).isSome = true) :
    (getPaper ((L.foldl (paperStep dl) s).papers) pid).isSome = true := by
  obtain ⟨row, hrow⟩ := Option.isSome_iff_exists.mp h
  rw [getPaper_papersFold_preserved dl L s pid row hrow]
  rfl

theorem papersFold_establishes (dl : RawNote → Option String) :
    ∀ (L : List RawNote) (s : Store) (n : RawNote), n ∈ L →
      (getPaper ((L.foldl (paperStep dl) s).papers) n.id).isSome = true
        ∨ ∃ e, buildPaper dl n = Except.error e := by
  intro L
  induction L with
  | nil => intro s n hn; cases hn
  | cons x L ih =>
    intro s n hn
    rcases List.mem_cons.mp hn with h1 | h2
    · subst h1
      cases hb : buildPaper dl n with
      | error e => exact Or.inr ⟨e, rfl⟩
      | ok p =>
        left
        rw [List.foldl_cons]
        apply isSome_getPaper_papersFold
        by_cases hp : (getPaper s.papers n.id).isSome = true
        · rw [paperStep_of_present dl s n hp]; exact hp
        · unfold paperStep
          rw [if_neg hp, hb]
          obtain ⟨hid, _⟩ := buildPaper_fields dl n p hb
          show (getPaper (upsertPaper s.papers p) n.id).isSome = true
          rw [← hid, getPaper_upsertPaper_self]
          rfl
    · rw [List.foldl_cons]; exact ih _ n h2

theorem papersFold_fixed (dl : RawNote → Option String) :
    ∀ (L : List RawNote) (s : Store),
      (∀ n ∈ L, (getPaper s.papers n.id).isSome = true
        ∨ ∃ e, buildPaper dl n = Except.error e) →
      L.foldl (paperStep dl) s = s := by
  intro L
  induction L with
  | nil => intro s _; rfl
  | cons x L ih =>
    intro s h
    have hstep : paperStep dl s x = s := by
      rcases h x (List.mem_cons_self _ _) with h1 | ⟨e, h2⟩
      · exact paperStep_of_present dl s x h1
      · exact paperStep_of_err dl s x e h2
    rw [List.foldl_cons, hstep]
    exact ih s (fun n hn => h n (List.mem_cons_of_mem _ hn))

theorem paperStep_reviews (dl : RawNote → Option String) (s : Store) (n : RawNote) :
    (paperStep dl s n).reviews = s.reviews := by
  unfold paperStep
  by_cases hp : (getPaper s.papers n.id).isSome = true
  · rw [if_pos hp]
  · rw [if_neg hp]
    cases buildPaper dl n <;> rfl

theorem papersFold_reviews (dl : RawNote → Option String) :
    ∀ (L : List RawNote) (s : Store),
      ((L.foldl (paperStep dl) s).reviews) = s.reviews
  | [], _ => rfl
  | n :: L, s => by
    rw [List.foldl_cons, papersFold_reviews dl L _, paperStep_reviews]

/-! ### Review stage lemmas -/

theorem reviewStep_of_present (today : Int) (s : Store) (rev : RawNote)
    (h : (getReview s.reviews rev.id).isSome = true) : reviewStep today s rev = s := by
  unfold reviewStep; rw [if_pos h]

theorem reviewStep_of_err (today : Int) (s : Store) (rev : RawNote) (e : PyErr)
    (h : buildReview today rev = Except.error e) : reviewStep today s rev = s := by
  unfold reviewStep
  by_cases hp : (getReview s.reviews rev.id).isSome = true
  · rw [if_pos hp]
  · rw [if_neg hp, h]

theorem reviewStep_papers (today : Int) (s : Store) (rev : RawNote) :
    (reviewStep today s rev).papers = s.papers := by
  unfold reviewStep
  by_cases hp : (getReview s.reviews rev.id).isSome = true
  · rw [if_pos hp]
  · rw [if_neg hp]
    cases buildReview today rev <;> rfl

theorem reviewFold_papers (today : Int) :
    ∀ (L : List RawNote) (s : Store),
      ((L.foldl (reviewStep today) s).papers) = s.papers
  | [], _ => rfl
  | n :: L, s => by
    rw [List.foldl_cons, reviewFold_papers today L _, reviewStep_papers]

theorem getReview_reviewStep_preserved (today : Int) (s : Store) (rev : RawNote)
    (rid : String) (row : Review) (h : getReview s.reviews rid = some row) :
    getReview (reviewStep today s rev).reviews rid = some row := by
  by_cases hp : (getReview s.reviews rev.id).isSome = true
  · rw [reviewStep_of_present today s rev hp]; exact h
  · unfold reviewStep
    rw [if_neg hp]
    cases hb : buildReview today rev with
    | error e => exact h
    | ok rm =>
      obtain ⟨hid, _, _⟩ := buildReview_fields today rev rm hb
      have hne : rm.1.review_id ≠ rid := by
        intro hpe
        apply hp
        have hnp : rev.id = rid := by rw [← hid, hpe]
        rw [hnp, h]
        rfl
      show getReview (upsertReview s.reviews rm.1) rid = some row
      rw [getReview_upsertReview_ne _ _ _ hne]
      exact h

theorem getReview_reviewFold_preserved (today : Int) :
    ∀ (L : List RawNote) (s : Store) (rid : String) (row : Review),
      getReview s.reviews rid = some row →
      getReview ((L.foldl (reviewStep today) s).reviews) rid = some row
  | [], _, _, _, h => h
  | n :: L, s, rid, row, h =>
    getReview_reviewFold_preserved today L _ rid row
      (getReview_reviewStep_preserved today s n rid row h)

theorem isSome_getReview_reviewFold (today : Int) (L : List RawNote)
    (s : Store) (rid : String) (h : (getReview s.reviews rid).isSome = true) :
    (getReview ((L.foldl (reviewStep today) s).reviews) rid).isSome = true := by
  obtain ⟨row, hrow⟩ := Option.isSome_iff_exists.mp h
  rw [getReview_reviewFold_preserved today L s rid row hrow]
  rfl

theorem reviewFold_establishes (today : Int) :
    ∀ (L : List RawNote) (s : Store) (rev : RawNote), rev ∈ L →
      (getReview ((L.foldl (reviewStep today) s).reviews) rev.id).isSome = true
        ∨ ∃ e, buildReview today rev = Except.error e := by
  intro L
  induction L with
  | nil => intro s rev hn; cases hn
  | cons x L ih =>
    intro s rev hn
    rcases List.mem_cons.mp hn with h1 | h2
    · subst h1
      cases hb : buildReview today rev with
      | error e => exact Or.inr ⟨e, rfl⟩
      | ok rm =>
        left
        rw [List.foldl_cons]
        apply isSome_getReview_reviewFold
        by_cases hp : (getReview s.reviews rev.id).isSome = true
        · rw [reviewStep_of_present today s rev hp]; exact hp
        · unfold reviewStep
          rw [if_neg hp, hb]
          obtain ⟨hid, _, _⟩ := buildReview_fields today rev rm hb
          show (getReview (upsertReview s.reviews rm.1) rev.id).isSome = true
          rw [← hid, getReview_upsertReview_self]
          rfl
    · rw [List.foldl_cons]; exact ih _ rev h2

theorem reviewFold_fixed (today : Int) :
    ∀ (L : List RawNote) (s : Store),
      (∀ rev ∈ L, (getReview s.reviews rev.id).isSome = true
        ∨ ∃ e, buildReview today rev = Except.error e) →
      L.foldl (reviewStep today) s = s := by
  intro L
  induction L with
  | nil => intro s _; rfl
  | cons x L ih =>
    intro s h
    have hstep : reviewStep today s x = s := by
      rcases h x (List.mem_cons_self _ _) with h1 | ⟨e, h2⟩
      · exact reviewStep_of_present today s x h1
      · exact reviewStep_of_err today s x e h2
    rw [List.foldl_cons, hstep]
    exact ih s (fun rev hn => h rev (List.mem_cons_of_mem _ hn))

/-! ### Decision stage lemmas -/

/-- The effect of one decision note on one paper row: rows with a matching
primary key get the decision value as acceptance_status, others are
untouched (extraction failure leaves every row untouched). -/
def rowStep (d : RawNote) (p : Paper) : Paper :=
  match extractDecision d with
  | Except.error _ => p
  | Except.ok v =>
    if p.paper_id = d.forum then { p with acceptance_status := some v } else p

theorem map_id_of_eq {α : Type} (l : List α) (f : α → α) (h : ∀ a ∈ l, f a = a) :
    l.map f = l := by
  induction l with
  | nil => rfl
  | cons a l ih =>
    rw [List.map_cons, h a (List.mem_cons_self _ _),
      ih (fun b hb => h b (List.mem_cons_of_mem _ hb))]

theorem forall_ne_of_not_isSome_getPaper (ps : List Paper) (pid : String)
    (h : ¬ (getPaper ps pid).isSome = true) : ∀ p ∈ ps, p.paper_id ≠ pid := by
  induction ps with
  | nil => intro p hp; cases hp
  | cons q rest ih =>
    intro p hp
    by_cases hq : q.paper_id = pid
    · exfalso
      apply h
      show (if q.paper_id = pid then some q else getPaper rest pid).isSome = true
      rw [if_pos hq]
      rfl
    · rcases List.mem_cons.mp hp with h1 | h2
      · rw [h1]; exact hq
      · refine ih ?_ p h2
        intro hc
        apply h
        show (if q.paper_id = pid then some q else getPaper rest pid).isSome = true
        rw [if_neg hq]
        exact hc

theorem processDecisionNote_papers (s : Store) (d : RawNote) :
    (processDecisionNote s d).papers = s.papers.map (rowStep d) := by
  cases hd : extractDecision d with
  | error e =>
    simp only [processDecisionNote, hd]
    symm
    apply map_id_of_eq
    intro a _
    simp only [rowStep, hd]
  | ok v =>
    simp only [processDecisionNote, hd]
    by_cases hp : (getPaper s.papers d.forum).isSome = true
    · rw [if_pos hp]
      show setAcceptance s.papers d.forum v = _
      unfold setAcceptance
      refine List.map_congr_left fun a _ => ?_
      simp only [rowStep, hd]
    · rw [if_neg hp]
      have hall := forall_ne_of_not_isSome_getPaper s.papers d.forum hp
      symm
      apply map_id_of_eq
      intro a ha
      simp only [rowStep, hd]
      rw [if_neg (hall a ha)]

theorem processDecisionNote_reviews (s : Store) (d : RawNote) :
    (processDecisionNote s d).reviews = s.reviews := by
  cases hd : extractDecision d with
  | error e => simp only [processDecisionNote, hd]
  | ok v =>
    simp only [processDecisionNote, hd]
    by_cases hp : (getPaper s.papers d.forum).isSome = true
    · rw [if_pos hp]
    · rw [if_neg hp]

theorem processDecisionNote_mappings (s : Store) (d : RawNote) :
    (processDecisionNote s d).mappings = s.mappings := by
  cases hd : extractDecision d with
  | error e => simp only [processDecisionNote, hd]
  | ok v =>
    simp only [processDecisionNote, hd]
    by_cases hp : (getPaper s.papers d.forum).isSome = true
    · rw [if_pos hp]
    · rw [if_neg hp]

theorem decFold_papers :
    ∀ (L : List RawNote) (s : Store),
      ((L.foldl processDecisionNote s).papers) =
        s.papers.map (fun p => L.foldl (fun q d => rowStep d q) p) := by
  intro L
  induction L with
  | nil =>
    intro s
    symm
    apply map_id_of_eq
    intro a _
    rfl
  | cons d L ih =>
    intro s
    rw [List.foldl_cons, ih, processDecisionNote_papers, List.map_map]
    rfl

theorem decFold_reviews :
    ∀ (L : List RawNote) (s : Store),
      ((L.foldl processDecisionNote s).reviews) = s.reviews
  | [], _ => rfl
  | d :: L, s => by
    rw [List.foldl_cons, decFold_reviews L _, processDecisionNote_reviews]

theorem decFold_mappings :
    ∀ (L : List RawNote) (s : Store),
      ((L.foldl processDecisionNote s).mappings) = s.mappings
  | [], _ => rfl
  | d :: L, s => by
    rw [List.foldl_cons, decFold_mappings L _, processDecisionNote_mappings]

/-- The acceptance_status value a paper with a given key ends up with
after a list of decisions, as a fold over the decision list. -/
def statusFold (pid : String) (st : Option PyVal) (L : List RawNote) : Option PyVal :=
  L.foldl (fun st d =>
    match extractDecision d with
    | Except.error _ => st
    | Except.ok v => if pid = d.forum then some v else st) st

theorem rowFold_eq :
    ∀ (L : List RawNote) (p : Paper),
      L.foldl (fun q d => rowStep d q) p =
        { p with acceptance_status := statusFold p.paper_id p.acceptance_status L } := by
  intro L
  induction L with
  | nil => intro p; rfl
  | cons d L ih =>
    intro p
    rw [List.foldl_cons]
    cases hd : extractDecision d with
    | error e =>
      have h1 : rowStep d p = p := by simp only [rowStep, hd]
      have h2 : statusFold p.paper_id p.acceptance_status (d :: L) =
          statusFold p.paper_id p.acceptance_status L := by
        simp only [statusFold, List.foldl_cons]
        simp only [hd]
      rw [h1, ih, h2]
    | ok v =>
      by_cases hf : p.paper_id = d.forum
      · have h1 : rowStep d p = { p with acceptance_status := some v } := by
          simp only [rowStep, hd]
          rw [if_pos hf]
        have h2 : statusFold p.paper_id p.acceptance_status (d :: L) =
            statusFold p.paper_id (some v) L := by
          simp only [statusFold, List.foldl_cons]
          simp only [hd]
          rw [if_pos hf]
        rw [h1, ih, h2]
      · have h1 : rowStep d p = p := by
          simp only [rowStep, hd]
          rw [if_neg hf]
        have h2 : statusFold p.paper_id p.acceptance_status (d :: L) =
            statusFold p.paper_id p.acceptance_status L := by
          simp only [statusFold, List.foldl_cons]
          simp only [hd]
          rw [if_neg hf]
        rw [h1, ih, h2]

theorem statusFold_idem (pid : String) :
    ∀ (L : List RawNote) (st : Option PyVal),
      statusFold pid (statusFold pid st L) L = statusFold pid st L := by
  intro L
  induction L with
  | nil => intro st; rfl
  | cons d L ih =>
    intro st
    cases hd : extractDecision d with
    | error e =>
      have hc : ∀ st', statusFold pid st' (d :: L) = statusFold pid st' L := by
        intro st'
        simp only [statusFold, List.foldl_cons]
        simp only [hd]
      rw [hc (statusFold pid st (d :: L)), hc st, ih]
    | ok v =>
      by_cases hf : pid = d.forum
      · have hc : ∀ st', statusFold pid st' (d :: L) = statusFold pid (some v) L := by
          intro st'
          simp only [statusFold, List.foldl_cons]
          simp only [hd]
          rw [if_pos hf]
        rw [hc (statusFold pid st (d :: L)), hc st]
      · have hc : ∀ st', statusFold pid st' (d :: L) = statusFold pid st' L := by
          intro st'
          simp only [statusFold, List.foldl_cons]
          simp only [hd]
          rw [if_neg hf]
        rw [hc (statusFold pid st (d :: L)), hc st, ih]

theorem statusFold_isSome (pid : String) :
    ∀ (L : List RawNote) (st : Option PyVal), st.isSome = true →
      (statusFold pid st L).isSome = true := by
  intro L
  induction L with
  | nil => intro st h; exact h
  | cons d L ih =>
    intro st h
    cases hd : extractDecision d with
    | error e =>
      have hc : statusFold pid st (d :: L) = statusFold pid st L := by
        simp only [statusFold, List.foldl_cons]
        simp only [hd]
      rw [hc]
      exact ih st h
    | ok v =>
      by_cases hf : pid = d.forum
      · have hc : statusFold pid st (d :: L) = statusFold pid (some v) L := by
          simp only [statusFold, List.foldl_cons]
          simp only [hd]
          rw [if_pos hf]
        rw [hc]
        exact ih (some v) rfl
      · have hc : statusFold pid st (d :: L) = statusFold pid st L := by
          simp only [statusFold, List.foldl_cons]
          simp only [hd]
          rw [if_neg hf]
        rw [hc]
        exact ih st h

theorem rowFold_idem (L : List RawNote) (p : Paper) :
    L.foldl (fun q d => rowStep d q) (L.foldl (fun q d => rowStep d q) p) =
      L.foldl (fun q d => rowStep d q) p := by
  have h1 := rowFold_eq L p
  rw [h1, rowFold_eq L
    { p with acceptance_status := statusFold p.paper_id p.acceptance_status L }]
  show ({ p with acceptance_status := (statusFold p.paper_id
      (statusFold p.paper_id p.acceptance_status L) L) } : Paper) =
    { p with acceptance_status := statusFold p.paper_id p.acceptance_status L }
  rw [statusFold_idem]

theorem rowFold_paper_id (L : List RawNote) (p : Paper) :
    (L.foldl (fun q d => rowStep d q) p).paper_id = p.paper_id := by
  rw [rowFold_eq]

theorem decFold_idem (L : List RawNote) (s : Store) :
    L.foldl processDecisionNote (L.foldl processDecisionNote s) =
      L.foldl processDecisionNote s := by
  apply Store.ext
  · rw [decFold_papers, decFold_papers, List.map_map]
    refine List.map_congr_left fun a _ => ?_
    show L.foldl (fun q d => rowStep d q) (L.foldl (fun q d => rowStep d q) a) = _
    exact rowFold_idem L a
  · rw [decFold_reviews, decFold_reviews]
  · rw [decFold_mappings, decFold_mappings]

theorem getPaper_map (ps : List Paper) (f : Paper → Paper)
    (hf : ∀ p, (f p).paper_id = p.paper_id) (pid : String) :
    getPaper (ps.map f) pid = (getPaper ps pid).map f := by
  induction ps with
  | nil => rfl
  | cons q rest ih =>
    by_cases hq : q.paper_id = pid
    · have hfq : (f q).paper_id = pid := by rw [hf, hq]
      show (if (f q).paper_id = pid then some (f q) else getPaper (rest.map f) pid) = _
      rw [if_pos hfq]
      show _ = ((if q.paper_id = pid then some q else getPaper rest pid).map f)
      rw [if_pos hq]
      rfl
    · have hfq : ¬ (f q).paper_id = pid := by rw [hf]; exact hq
      show (if (f q).paper_id = pid then some (f q) else getPaper (rest.map f) pid) = _
      rw [if_neg hfq]
      show _ = ((if q.paper_id = pid then some q else getPaper rest pid).map f)
      rw [if_neg hq]
      exact ih

theorem isSome_getPaper_decFold (L : List RawNote) (s : Store) (pid : String) :
    (getPaper ((L.foldl processDecisionNote s).papers) pid).isSome =
      (getPaper s.papers pid).isSome := by
  rw [decFold_papers, getPaper_map _ _ (fun p => rowFold_paper_id L p) pid]
  cases getPaper s.papers pid <;> rfl

/-! ### Count lemmas -/

theorem getPaper_paperStep_ne (dl : RawNote → Option String) (s : Store) (n : RawNote)
    (pid : String) (hne : n.id ≠ pid) :
    getPaper (paperStep dl s n).papers pid = getPaper s.papers pid := by
  unfold paperStep
  by_cases hp : (getPaper s.papers n.id).isSome = true
  · rw [if_pos hp]
  · rw [if_neg hp]
    cases hb : buildPaper dl n with
    | error e => rfl
    | ok p =>
      obtain ⟨hid, _⟩ := buildPaper_fields dl n p hb
      show getPaper (upsertPaper s.papers p) pid = getPaper s.papers pid
      exact getPaper_upsertPaper_ne _ _ _ (by rw [hid]; exact hne)

theorem paperTick_eq (dl : RawNote → Option String) (s : Store) (n : RawNote) :
    paperTick dl s n =
      if ((getPaper s.papers n.id).isSome || buildPaperOk dl n) then 1 else 0 := by
  by_cases hp : (getPaper s.papers n.id).isSome = true
  · simp [paperTick, buildPaperOk, hp]
  · cases hb : buildPaper dl n with
    | error e => simp [paperTick, buildPaperOk, hp, hb]
    | ok p => simp [paperTick, buildPaperOk, hp, hb]

theorem papers_count_foldl (dl : RawNote → Option String) :
    ∀ (L : List RawNote) (s : Store) (c : Nat), (L.map RawNote.id).Nodup →
      (L.foldl (fun acc note =>
          (paperStep dl acc.1 note, acc.2 + paperTick dl acc.1 note)) (s, c)).2
        = c + (L.filter
            (fun n => (getPaper s.papers n.id).isSome || buildPaperOk dl n)).length := by
  intro L
  induction L with
  | nil => intro s c _; simp
  | cons n L ih =>
    intro s c h
    have h' : (n.id ∉ L.map RawNote.id) ∧ (L.map RawNote.id).Nodup := by
      rw [List.map_cons] at h; exact List.nodup_cons.mp h
    rw [List.foldl_cons]
    show (L.foldl _ (paperStep dl s n, c + paperTick dl s n)).2 = _
    rw [ih (paperStep dl s n) (c + paperTick dl s n) h'.2]
    have hfil : L.filter
          (fun m => (getPaper (paperStep dl s n).papers m.id).isSome || buildPaperOk dl m)
        = L.filter (fun m => (getPaper s.papers m.id).isSome || buildPaperOk dl m) := by
      refine List.filter_congr fun m hm => ?_
      have hne : n.id ≠ m.id := by
        intro he
        exact h'.1 (he ▸ List.mem_map_of_mem RawNote.id hm)
      rw [getPaper_paperStep_ne dl s n m.id hne]
    rw [hfil, paperTick_eq, List.filter_cons]
    by_cases hcond : ((getPaper s.papers n.id).isSome || buildPaperOk dl n) = true
    · rw [if_pos hcond, if_pos hcond]
      simp only [List.length_cons]
      omega
    · rw [if_neg hcond, if_neg hcond]
      omega

theorem foldl_pair_fst {α σ : Type} (f : σ → α → σ) (g : σ → α → Nat) :
    ∀ (L : List α) (s : σ) (c : Nat),
      (L.foldl (fun acc x => (f acc.1 x, acc.2 + g acc.1 x)) (s, c)).1 = L.foldl f s := by
  intro L
  induction L with
  | nil => intro s c; rfl
  | cons x L ih =>
    intro s c
    rw [List.foldl_cons, List.foldl_cons]
    exact ih (f s x) (c + g s x)

theorem fetchPapers_fst (dl : RawNote → Option String) (subs : List RawNote) (s : Store) :
    (fetchPapers dl subs s).1 = (dedupeBy RawNote.id subs).foldl (paperStep dl) s := by
  unfold fetchPapers
  exact foldl_pair_fst (paperStep dl) (paperTick dl) _ s 0

/-! ### Claim C5 (amended): what the reported counts actually count -/

/-- C5 amended: the counts reported at the end of a run are discovery
counts, not ingestion counts: fetch_reviews and fetch_decisions return the
number of unique discovered records whether or not each was ingested,
skipped or failed (main.py lines 202, 253, 282 and 302), and fetch_papers
returns the number of unique submissions that were already present
(skipped) or whose extraction succeeded, again counting skipped records
(main.py line 136). -/
theorem counts_report_discovered (dl : RawNote → Option String) (today : Int) (s : Store)
    (subs revs decs : List RawNote) :
    (fetchPapers dl subs s).2
        = ((dedupeBy RawNote.id subs).filter
            (fun n => (getPaper s.papers n.id).isSome || buildPaperOk dl n)).length
    ∧ (fetchReviews today revs s).2 = (dedupeBy RawNote.id revs).length
    ∧ (fetchDecisions decs s).2 = (dedupeBy RawNote.id decs).length := by
  refine ⟨?_, rfl, rfl⟩
  unfold fetchPapers
  rw [papers_count_foldl dl _ s 0 (nodup_map_key_dedupeBy RawNote.id subs)]
  omega

/-! ### Claim C1: the pipeline is idempotent -/

/-- C1: running the full pipeline (fetch_papers, then fetch_reviews, then
fetch_decisions) a second time against the store produced by the first run
with the same source data leaves every table unchanged: papers are skipped
as already present, reviews are skipped by review_id, and decisions
re-assign the same acceptance_status values. -/
theorem pipeline_idempotent (dl : RawNote → Option String) (today : Int)
    (subs revs decs : List RawNote) (s : Store) :
    pipeline dl today subs revs decs (pipeline dl today subs revs decs s) =
      pipeline dl today subs revs decs s := by
  have hp : ∀ t : Store, (fetchPapers dl subs t).1 =
      (dedupeBy RawNote.id subs).foldl (paperStep dl) t := fun t => fetchPapers_fst dl subs t
  have hr : ∀ t : Store, (fetchReviews today revs t).1 =
      (dedupeBy RawNote.id revs).foldl (reviewStep today) t := fun _ => rfl
  have hd : ∀ t : Store, (fetchDecisions decs t).1 =
      (dedupeBy RawNote.id decs).foldl processDecisionNote t := fun _ => rfl
  unfold pipeline
  simp only [hp, hr, hd]
  set Lp := dedupeBy RawNote.id subs with hLp
  set Lr := dedupeBy RawNote.id revs with hLr
  set Ld := dedupeBy RawNote.id decs with hLd
  set s1 := Lp.foldl (paperStep dl) s with hs1
  set s2 := Lr.foldl (reviewStep today) s1 with hs2
  set s3 := Ld.foldl processDecisionNote s2 with hs3
  have hfixP : Lp.foldl (paperStep dl) s3 = s3 := by
    apply papersFold_fixed
    intro n hn
    rcases papersFold_establishes dl Lp s n hn with h1 | h2
    · left
      have e2 : s2.papers = s1.papers := reviewFold_papers today Lr s1
      have e3 : (getPaper s3.papers n.id).isSome = (getPaper s2.papers n.id).isSome :=
        isSome_getPaper_decFold Ld s2 n.id
      rw [e3, e2]
      exact h1
    · exact Or.inr h2
  rw [hfixP]
  have hfixR : Lr.foldl (reviewStep today) s3 = s3 := by
    apply reviewFold_fixed
    intro rev hn
    rcases reviewFold_establishes today Lr s1 rev hn with h1 | h2
    · left
      have e3 : s3.reviews = s2.reviews := decFold_reviews Ld s2
      rw [e3]
      exact h1
    · exact Or.inr h2
  rw [hfixR]
  exact decFold_idem Ld s2

/-! ### Claim C6: skip-existing papers, decisions still update -/

theorem paper_id_of_getPaper (ps : List Paper) (pid : String) (p : Paper)
    (h : getPaper ps pid = some p) : p.paper_id = pid := by
  induction ps with
  | nil => exact Option.noConfusion h
  | cons q rest ih =>
    simp only [getPaper] at h
    by_cases hq : q.paper_id = pid
    · rw [if_pos hq] at h
      injection h with h
      rw [← h]
      exact hq
    · rw [if_neg hq] at h
      exact ih h

/-- C6: a paper P1 already in the store is skipped by a re-run of the
paper stage even when P1 is among the discovered records (main.py lines
133-137), leaving its whole row, in particular title, abstract and
authors, unchanged, while a subsequent decision whose forum is P1 still
updates that row's acceptance_status (main.py lines 285-292). -/
theorem skip_existing_and_decision_updates (dl : RawNote → Option String)
    (s : Store) (subs : List RawNote) (row : Paper) (n : RawNote)
    (hmem : n ∈ subs) (hid : n.id = row.paper_id)
    (hrow : getPaper s.papers row.paper_id = some row) :
    getPaper ((fetchPapers dl subs s).1).papers row.paper_id = some row
    ∧ ∀ (s' : Store) (row' : Paper) (d : RawNote) (v : PyVal),
        getPaper s'.papers row.paper_id = some row' →
        d.forum = row.paper_id →
        extractDecision d = Except.ok v →
        getPaper ((fetchDecisions [d] s').1).papers row.paper_id =
          some { row' with acceptance_status := some v } := by
  constructor
  · rw [fetchPapers_fst]
    exact getPaper_papersFold_preserved dl _ s _ row hrow
  · intro s' row' d v hrow' hforum hdec
    have hrp : row'.paper_id = row.paper_id := paper_id_of_getPaper s'.papers _ row' hrow'
    show getPaper ((processDecisionNote s' d).papers) row.paper_id = _
    simp only [processDecisionNote, hdec]
    have hfound : (getPaper s'.papers d.forum).isSome = true := by
      rw [hforum, hrow']; rfl
    rw [if_pos hfound]
    show getPaper (setAcceptance s'.papers d.forum v) row.paper_id = _
    unfold setAcceptance
    rw [getPaper_map _ _ (fun p => by
      by_cases hc : p.paper_id = d.forum <;> simp [hc]) _, hrow']
    show some (if row'.paper_id = d.forum
        then { row' with acceptance_status := some v } else row') = _
    rw [if_pos (by rw [hrp, hforum])]

/-- Concrete store for the skip-existing witness. -/
def paperRowC6 : Paper :=
  { paper_id := "P1", title := PyVal.str "Old title",
    abstract := PyVal.str "Old abstract", authors := "Old authors",
    venue := "EMNLP/2023/Conference", year := 2023,
    submission_text := Option.none, acceptance_status := Option.none,
    license := "CC-BY" }

/-- Store already holding paper P1. -/
def storeC6 : Store := { papers := [paperRowC6], reviews := [], mappings := [] }

/-- A re-discovered submission with the same identifier P1 and a new
title. -/
def subNoteC6 : RawNote :=
  { id := "P1", number := 1, forum := "P1", signatures := [],
    content := [("title", PyVal.dict [("value", PyVal.str "New title")])],
    tcdate := Option.none }

/-- A decision note whose forum is P1. -/
def decNoteC6 : RawNote :=
  { id := "D1", number := 0, forum := "P1", signatures := [],
    content := [("decision", PyVal.dict [("value", PyVal.str "Accept")])],
    tcdate := Option.none }

/-- Witness for skip_existing_and_decision_updates: re-discovering P1
leaves its row unchanged and a decision for P1 sets its
acceptance_status. -/
theorem skip_existing_and_decision_updates_witness :
    getPaper ((fetchPapers (fun _ => Option.none) [subNoteC6] storeC6).1).papers "P1" =
      some paperRowC6
    ∧ getPaper ((fetchDecisions [decNoteC6] storeC6).1).papers "P1" =
        some { paperRowC6 with acceptance_status := some (PyVal.str "Accept") } := by
  have h := skip_existing_and_decision_updates (fun _ => Option.none) storeC6 [subNoteC6]
    paperRowC6 subNoteC6 (List.mem_cons_self _ _) rfl rfl
  exact ⟨h.1, h.2 storeC6 paperRowC6 decNoteC6 (PyVal.str "Accept") rfl rfl rfl⟩

/-! ### Claim C7: acceptance_status is never reverted to null -/

/-- The three pipeline operations, each applicable at any time with any
discovered input (abstracting arbitrarily repeated runs of main.py's
stages). -/
inductive PipelineOp where
  | papersOp (dl : RawNote → Option String) (subs : List RawNote)
  | reviewsOp (today : Int) (revs : List RawNote)
  | decisionsOp (decs : List RawNote)

/-- Apply one pipeline operation to the store. -/
def runOp (s : Store) : PipelineOp → Store
  | PipelineOp.papersOp dl subs => (fetchPapers dl subs s).1
  | PipelineOp.reviewsOp today revs => (fetchReviews today revs s).1
  | PipelineOp.decisionsOp decs => (fetchDecisions decs s).1

/-- Apply a sequence of pipeline operations to the store. -/
def runOps (s : Store) (ops : List PipelineOp) : Store :=
  ops.foldl runOp s

theorem runOp_status_some (s : Store) (op : PipelineOp) (pid : String) (row : Paper)
    (v : PyVal) (hrow : getPaper s.papers pid = some row)
    (hst : row.acceptance_status = some v) :
    ∃ row' w, getPaper ((runOp s op).papers) pid = some row'
      ∧ row'.acceptance_status = some w := by
  cases op with
  | papersOp dl subs =>
    refine ⟨row, v, ?_, hst⟩
    show getPaper ((fetchPapers dl subs s).1.papers) pid = some row
    rw [fetchPapers_fst]
    exact getPaper_papersFold_preserved dl _ s pid row hrow
  | reviewsOp today revs =>
    refine ⟨row, v, ?_, hst⟩
    show getPaper (((dedupeBy RawNote.id revs).foldl (reviewStep today) s).papers) pid =
      some row
    rw [reviewFold_papers]
    exact hrow
  | decisionsOp decs =>
    have hsome : (statusFold row.paper_id row.acceptance_status
        (dedupeBy RawNote.id decs)).isSome = true := by
      apply statusFold_isSome
      rw [hst]; rfl
    obtain ⟨w, hw⟩ := Option.isSome_iff_exists.mp hsome
    refine ⟨{ row with acceptance_status := (statusFold row.paper_id row.acceptance_status
        (dedupeBy RawNote.id decs)) }, w, ?_, hw⟩
    show getPaper (((dedupeBy RawNote.id decs).foldl processDecisionNote s).papers) pid = _
    rw [decFold_papers, getPaper_map _ _ (fun p => rowFold_paper_id _ p) pid, hrow]
    show some ((dedupeBy RawNote.id decs).foldl (fun q d => rowStep d q) row) = _
    rw [rowFold_eq]

theorem runOps_status_some :
    ∀ (ops : List PipelineOp) (s : Store) (pid : String) (row : Paper) (v : PyVal),
      getPaper s.papers pid = some row → row.acceptance_status = some v →
      ∃ row' w, getPaper ((runOps s ops).papers) pid = some row'
        ∧ row'.acceptance_status = some w := by
  intro ops
  induction ops with
  | nil => intro s pid row v h1 h2; exact ⟨row, v, h1, h2⟩
  | cons op ops ih =>
    intro s pid row v h1 h2
    obtain ⟨row', w, h1', h2'⟩ := runOp_status_some s op pid row v h1 h2
    exact ih (runOp s op) pid row' w h1' h2'

theorem papersFold_new_null (dl : RawNote → Option String) :
    ∀ (L : List RawNote) (s : Store) (pid : String),
      getPaper s.papers pid = Option.none →
      ∀ row', getPaper ((L.foldl (paperStep dl) s).papers) pid = some row' →
        row'.acceptance_status = Option.none := by
  intro L
  induction L with
  | nil =>
    intro s pid habs row' h
    rw [List.foldl_nil] at h
    rw [habs] at h
    exact Option.noConfusion h
  | cons n L ih =>
    intro s pid habs row' h
    rw [List.foldl_cons] at h
    by_cases hnew : getPaper ((paperStep dl s n).papers) pid = Option.none
    · exact ih _ pid hnew row' h
    · have hstep : ∃ p, buildPaper dl n = Except.ok p ∧ p.paper_id = pid ∧
          getPaper ((paperStep dl s n).papers) pid = some p := by
        by_cases hp : (getPaper s.papers n.id).isSome = true
        · exact absurd (by rw [paperStep_of_present dl s n hp]; exact habs) hnew
        · cases hb : buildPaper dl n with
          | error e =>
            exact absurd (by rw [paperStep_of_err dl s n e hb]; exact habs) hnew
          | ok p =>
            by_cases hpp : p.paper_id = pid
            · refine ⟨p, rfl, hpp, ?_⟩
              unfold paperStep
              rw [if_neg hp, hb]
              show getPaper (upsertPaper s.papers p) pid = some p
              rw [← hpp]
              exact getPaper_upsertPaper_self s.papers p
            · exfalso
              apply hnew
              unfold paperStep
              rw [if_neg hp, hb]
              show getPaper (upsertPaper s.papers p) pid = Option.none
              rw [getPaper_upsertPaper_ne _ _ _ hpp]
              exact habs
      obtain ⟨p, hb, hpp, hget⟩ := hstep
      obtain ⟨_, hpst⟩ := buildPaper_fields dl n p hb
      have hfin := getPaper_papersFold_preserved dl L _ pid p hget
      rw [hfin] at h
      injection h with h
      rw [← h]
      exact hpst

/-- C7: once a paper row's acceptance_status is non-null it stays non-null
under any further sequence of pipeline operations (the paper stage skips
existing rows, the review stage never touches papers, and the decision
stage only assigns extracted values, never null, main.py lines 133-137 and
287-291); moreover the paper stage only ever creates rows with a null
acceptance_status (main.py line 152). -/
theorem acceptance_status_monotone :
    (∀ (ops : List PipelineOp) (s : Store) (pid : String) (row : Paper) (v : PyVal),
        getPaper s.papers pid = some row → row.acceptance_status = some v →
        ∃ row' w, getPaper ((runOps s ops).papers) pid = some row'
          ∧ row'.acceptance_status = some w)
    ∧ (∀ (dl : RawNote → Option String) (subs : List RawNote) (s : Store) (pid : String),
        getPaper s.papers pid = Option.none →
        ∀ row', getPaper (((fetchPapers dl subs s).1).papers) pid = some row' →
          row'.acceptance_status = Option.none) := by
  constructor
  · exact runOps_status_some
  · intro dl subs s pid habs row' h
    rw [fetchPapers_fst] at h
    exact papersFold_new_null dl _ s pid habs row' h

/-- Store holding a paper P2 whose acceptance_status is already set. -/
def storeC7 : Store :=
  { papers :=
      [{ paper_id := "P2", title := PyVal.str "T", abstract := PyVal.str "",
         authors := "A", venue := "EMNLP/2023/Conference", year := 2023,
         submission_text := Option.none,
         acceptance_status := some (PyVal.str "Reject"), license := "CC-BY" }]
    reviews := []
    mappings := [] }

/-- A later decision note targeting P2. -/
def decNoteC7 : RawNote :=
  { id := "D2", number := 0, forum := "P2", signatures := [],
    content := [("decision", PyVal.dict [("value", PyVal.str "Accept")])],
    tcdate := Option.none }

/-- Witness for acceptance_status_monotone: after a further paper stage
and a further decision stage, P2's acceptance_status is still non-null. -/
theorem acceptance_status_monotone_witness :
    ∃ row' w, getPaper ((runOps storeC7
        [PipelineOp.papersOp (fun _ => Option.none) [], PipelineOp.decisionsOp [decNoteC7]]).papers)
        "P2" = some row' ∧ row'.acceptance_status = some w :=
  acceptance_status_monotone.1
    [PipelineOp.papersOp (fun _ => Option.none) [], PipelineOp.decisionsOp [decNoteC7]]
    storeC7 "P2" _ (PyVal.str "Reject") rfl rfl

/-! ### Claim C10 witness -/

/-- A discovered review with an empty signatures list. -/
def revNoteC10 : RawNote :=
  { id := "R10", number := 0, forum := "P1", signatures := [],
    content := [("review", PyVal.dict [("value", PyVal.str "Good paper")])],
    tcdate := some 86400000 }

/-- The empty store used for the C10 witness. -/
def storeC10 : Store := { papers := [], reviews := [], mappings := [] }

/-- The row that revNoteC10 builds. -/
def reviewRowC10 : Review :=
  { review_id := "R10", paper_id := "P1", reviewer_id := Option.none,
    review_text := PyVal.str "Good paper", review_date := 1,
    overall_score := PyVal.str "", confidence_score := PyVal.str "",
    review_structure := "unstructured" }

/-- The mapping row that revNoteC10 builds. -/
def mappingRowC10 : PaperReviewMapping :=
  { paper_id := "P1", review_id := "R10", reviewer_role := "reviewer", review_round := 1 }

/-- Witness for reviewer_id_from_signatures: an empty-signatures review is
persisted with a null reviewer_id. -/
theorem reviewer_id_from_signatures_witness :
    reviewRowC10.reviewer_id = Option.none
    ∧ getReview ((fetchReviews 1 [revNoteC10] storeC10).1.reviews) "R10" =
        some reviewRowC10 := by
  have h := reviewer_id_from_signatures 1 storeC10 revNoteC10
    (reviewRowC10, mappingRowC10) rfl rfl
  exact ⟨h.2.1 rfl, h.2.2.2⟩

/-! ### Claim C4 (amended): extraction is total on wrapper-shaped records -/

/-- Whether a PyVal is a mapping (so the .get chain cannot raise on it). -/
def isDictVal : PyVal → Bool
  | PyVal.dict _ => true
  | _ => false

/-- The shape condition under which the chained access
content.get(key, \x7b\x7d).get("value", d) cannot raise: the key is
absent, or holds a wrapper mapping. -/
def wrapperOk (content : List (String × PyVal)) (key : String) : Bool :=
  match dictLookup content key with
  | Option.none => true
  | some v => isDictVal v

/-- Whether ", ".join(v) cannot raise: a string, or a list of strings. -/
def joinable : PyVal → Bool
  | PyVal.str _ => true
  | PyVal.list l => l.all (fun v => match v with | PyVal.str _ => true | _ => false)
  | _ => false

/-- Shape condition for the authors field: absent, or a wrapper mapping
whose "value" slot (defaulting to the empty list) is joinable. -/
def authorsOk (content : List (String × PyVal)) : Bool :=
  match dictLookup content "authors" with
  | Option.none => true
  | some (PyVal.dict d) => joinable ((dictLookup d "value").getD (PyVal.list []))
  | some _ => false

theorem getWrappedValue_of_absent (content : List (String × PyVal)) (key : String)
    (dflt : PyVal) (h : dictLookup content key = Option.none) :
    getWrappedValue content key dflt = Except.ok dflt := by
  unfold getWrappedValue
  rw [h]
  rfl

theorem getWrappedValue_of_dict (content : List (String × PyVal)) (key : String)
    (dflt : PyVal) (d : List (String × PyVal))
    (h : dictLookup content key = some (PyVal.dict d)) :
    getWrappedValue content key dflt = Except.ok ((dictLookup d "value").getD dflt) := by
  unfold getWrappedValue
  rw [h]
  rfl

theorem getWrappedValue_ok_of_wrapperOk (content : List (String × PyVal)) (key : String)
    (dflt : PyVal) (h : wrapperOk content key = true) :
    ∃ v, getWrappedValue content key dflt = Except.ok v := by
  unfold wrapperOk at h
  cases hl : dictLookup content key with
  | none => exact ⟨dflt, getWrappedValue_of_absent content key dflt hl⟩
  | some v =>
    rw [hl] at h
    cases v with
    | none => exact Bool.noConfusion h
    | str s => exact Bool.noConfusion h
    | int n => exact Bool.noConfusion h
    | list l => exact Bool.noConfusion h
    | dict d =>
      exact ⟨(dictLookup d "value").getD dflt, getWrappedValue_of_dict content key dflt d hl⟩

theorem joinStrs_ok_of_all_str :
    ∀ l : List PyVal,
      (l.all (fun v => match v with | PyVal.str _ => true | _ => false)) = true →
      ∃ ss, joinStrs l = Except.ok ss := by
  intro l
  induction l with
  | nil => intro _; exact ⟨[], rfl⟩
  | cons v l ih =>
    intro h
    rw [List.all_cons, Bool.and_eq_true] at h
    cases v with
    | str s =>
      obtain ⟨ss, hss⟩ := ih h.2
      exact ⟨s :: ss, by simp only [joinStrs, hss]⟩
    | none => exact Bool.noConfusion h.1
    | int n => exact Bool.noConfusion h.1
    | list l2 => exact Bool.noConfusion h.1
    | dict d => exact Bool.noConfusion h.1

theorem pyJoinComma_ok_of_joinable (v : PyVal) (h : joinable v = true) :
    ∃ s, pyJoinComma v = Except.ok s := by
  cases v with
  | str s => exact ⟨_, rfl⟩
  | list l =>
    obtain ⟨ss, hss⟩ := joinStrs_ok_of_all_str l h
    exact ⟨String.intercalate ", " ss, by simp only [pyJoinComma, hss]⟩
  | none => exact Bool.noConfusion h
  | int n => exact Bool.noConfusion h
  | dict d => exact Bool.noConfusion h

theorem extractTitle_ok (note : RawNote) (h : wrapperOk note.content "title" = true) :
    ∃ t, extractTitle note = Except.ok t := by
  obtain ⟨v, hv⟩ := getWrappedValue_ok_of_wrapperOk note.content "title" (PyVal.str "") h
  exact ⟨pyOr v (PyVal.str "Unknown"), by unfold extractTitle; rw [hv]⟩

theorem extractAbstract_ok (note : RawNote) (h : wrapperOk note.content "abstract" = true) :
    ∃ a, extractAbstract note = Except.ok a := by
  obtain ⟨v, hv⟩ := getWrappedValue_ok_of_wrapperOk note.content "abstract" (PyVal.str "") h
  exact ⟨pyOr v (PyVal.str ""), by unfold extractAbstract; rw [hv]⟩

theorem extractReviewText_ok (rev : RawNote) (h : wrapperOk rev.content "review" = true) :
    ∃ t, extractReviewText rev = Except.ok t := by
  obtain ⟨v, hv⟩ := getWrappedValue_ok_of_wrapperOk rev.content "review" (PyVal.str "") h
  exact ⟨pyOr v (PyVal.str ""), by unfold extractReviewText; rw [hv]⟩

theorem extractConfidence_ok (content : List (String × PyVal))
    (h : wrapperOk content "confidence" = true) :
    ∃ c, extractConfidence content = Except.ok c := by
  obtain ⟨v, hv⟩ := getWrappedValue_ok_of_wrapperOk content "confidence" (PyVal.str "") h
  exact ⟨pyOr v (PyVal.str ""), by unfold extractConfidence; rw [hv]⟩

theorem extractAuthors_ok (note : RawNote) (h : authorsOk note.content = true) :
    ∃ au, extractAuthors note = Except.ok au := by
  unfold authorsOk at h
  cases hl : dictLookup note.content "authors" with
  | none =>
    unfold extractAuthors
    rw [getWrappedValue_of_absent _ _ _ hl]
    exact ⟨"Unknown", rfl⟩
  | some v =>
    rw [hl] at h
    cases v with
    | dict d =>
      obtain ⟨s, hs⟩ := pyJoinComma_ok_of_joinable _ h
      unfold extractAuthors
      rw [getWrappedValue_of_dict _ _ _ _ hl]
      refine ⟨if s = "" then "Unknown" else s, ?_⟩
      show (match pyJoinComma ((dictLookup d "value").getD (PyVal.list [])) with
        | Except.error e => Except.error e
        | Except.ok j => Except.ok (if j = "" then "Unknown" else j)) = _
      rw [hs]
    | none => exact Bool.noConfusion h
    | str s => exact Bool.noConfusion h
    | int n => exact Bool.noConfusion h
    | list l => exact Bool.noConfusion h

theorem extractOverallScore_ok (content : List (String × PyVal))
    (h5 : wrapperOk content "overall assessment" = true)
    (h6 : wrapperOk content "recommendation" = true)
    (h7 : wrapperOk content "overall_evaluation" = true) :
    ∃ sc, extractOverallScore content = Except.ok sc := by
  obtain ⟨a, ha⟩ :=
    getWrappedValue_ok_of_wrapperOk content "overall assessment" (PyVal.str "") h5
  obtain ⟨b, hb⟩ :=
    getWrappedValue_ok_of_wrapperOk content "recommendation" (PyVal.str "") h6
  obtain ⟨c, hc⟩ :=
    getWrappedValue_ok_of_wrapperOk content "overall_evaluation" (PyVal.str "") h7
  unfold extractOverallScore
  rw [ha, hb, hc]
  show ∃ sc, (if pyTruthy a = true then Except.ok a
    else if pyTruthy b = true then Except.ok b
    else if pyTruthy c = true then Except.ok c
    else Except.ok (PyVal.str "")) = Except.ok sc
  by_cases ta : pyTruthy a = true
  · rw [if_pos ta]; exact ⟨a, rfl⟩
  · rw [if_neg ta]
    by_cases tb : pyTruthy b = true
    · rw [if_pos tb]; exact ⟨b, rfl⟩
    · rw [if_neg tb]
      by_cases tc : pyTruthy c = true
      · rw [if_pos tc]; exact ⟨c, rfl⟩
      · rw [if_neg tc]; exact ⟨PyVal.str "", rfl⟩

/-- C4 amended: field extraction never raises on a record in which every
accessed field is absent or holds a wrapper mapping and the authors
wrapper's value (defaulting to the empty list) is a string or a list of
strings; a field of non-mapping type instead raises and the per-record
handler skips the record (the accompanying counterexample). -/
theorem extraction_total_on_wrapped (dl : RawNote → Option String) (today : Int)
    (note : RawNote)
    (h1 : wrapperOk note.content "title" = true)
    (h2 : wrapperOk note.content "abstract" = true)
    (h3 : authorsOk note.content = true)
    (h4 : wrapperOk note.content "review" = true)
    (h5 : wrapperOk note.content "overall assessment" = true)
    (h6 : wrapperOk note.content "recommendation" = true)
    (h7 : wrapperOk note.content "overall_evaluation" = true)
    (h8 : wrapperOk note.content "confidence" = true) :
    (∃ p, buildPaper dl note = Except.ok p)
    ∧ ∃ rm, buildReview today note = Except.ok rm := by
  obtain ⟨t, ht⟩ := extractTitle_ok note h1
  obtain ⟨ab, hab⟩ := extractAbstract_ok note h2
  obtain ⟨au, hau⟩ := extractAuthors_ok note h3
  obtain ⟨tx, htx⟩ := extractReviewText_ok note h4
  obtain ⟨sc, hsc⟩ := extractOverallScore_ok note.content h5 h6 h7
  obtain ⟨cf, hcf⟩ := extractConfidence_ok note.content h8
  constructor
  · cases hbp : buildPaper dl note with
    | ok p => exact ⟨p, rfl⟩
    | error e =>
      exfalso
      unfold buildPaper at hbp
      rw [ht, hab, hau] at hbp
      exact Except.noConfusion hbp
  · cases hbr : buildReview today note with
    | ok rm => exact ⟨rm, rfl⟩
    | error e =>
      exfalso
      unfold buildReview at hbr
      rw [htx, hsc, hcf] at hbr
      exact Except.noConfusion hbr

/-- A record whose present fields all hold wrapper mappings. -/
def wrappedNoteC4 : RawNote :=
  { id := "N4", number := 4, forum := "N4", signatures := ["~rev"],
    content :=
      [("title", PyVal.dict [("value", PyVal.str "T")]),
       ("authors", PyVal.dict [("value", PyVal.list [PyVal.str "A", PyVal.str "B"])]),
       ("review", PyVal.dict [("value", PyVal.str "R")])],
    tcdate := some 0 }

/-- Witness for extraction_total_on_wrapped at a concrete wrapper-shaped
record: both extractions succeed. -/
theorem extraction_total_on_wrapped_witness :
    (∃ p, buildPaper (fun _ => Option.none) wrappedNoteC4 = Except.ok p)
    ∧ ∃ rm, buildReview 0 wrappedNoteC4 = Except.ok rm :=
  extraction_total_on_wrapped (fun _ => Option.none) 0 wrappedNoteC4
    rfl rfl rfl rfl rfl rfl rfl rfl

end LinguaPeer
